import Mathlib

/-!
Verification of the SoundFlow audio-effects calling layer
(ComfyUI-SoundFlow: `nodes.py` and `libeffects.py`).

The native dynamics engine (`ProcessCompressor`, `ProcessDucking`,
`FreeProcessingResult`) lives in an opaque shared library, so the engine is
modelled as an abstract function parameter; everything else below is a direct
shallow embedding of the Python dispatch code:

* ComfyUI audio tensors `[batch][channel][sample]` become `Tensor3`, a list of
  lists of lists of rationals (rationals standing in for float32 samples).
* The per-channel dispatch loops of `apply_compression` and `apply_ducking`
  become explicit folds/recursions that also log every FFI call, so that
  call-count and ownership properties can be stated.
* Early `return` statements of the Python code (library not loaded, null
  result, caught exceptions) become explicit outcome flags.
-/

namespace SoundFlow


/-- ComfyUI audio waveform tensor, indexed `[batch][channel][sample]`. -/

abbrev Tensor3 := List (List (List ℚ))

/-- The AUDIO dictionary passed between nodes: a waveform tensor plus a
sample rate (`{"waveform": ..., "sample_rate": ...}`). -/

structure Audio where
  waveform : Tensor3
  sample_rate : Nat
deriving DecidableEq, Repr

/-- `waveform.shape[0]`, the batch count. -/

def dim0 (t : Tensor3) : Nat := t.length

/-- `waveform.shape[1]`, the channel count (torch tensors are rectangular,
so the first batch is authoritative). -/

def dim1 (t : Tensor3) : Nat := (t.headD []).length

/-- `waveform.shape[2]`, the sample count per channel. -/

def dim2 (t : Tensor3) : Nat := ((t.headD []).headD []).length

/-- Read channel `waveform[b, c]` (out-of-range reads give `[]`; the Python
loops only index in range). -/

def get3 (t : Tensor3) (b c : Nat) : List ℚ := (t.getD b []).getD c []

/-- Write channel `waveform[b, c] = v` (out-of-range writes are dropped; the
Python loops only index in range). -/

def set3 (t : Tensor3) (b c : Nat) (v : List ℚ) : Tensor3 :=
  t.set b ((t.getD b []).set c v)

/-- The full shape skeleton of a tensor: every channel's sample count. -/

def shape3 (t : Tensor3) : List (List Nat) :=
  t.map (fun batch => batch.map List.length)

/-- Rectangularity: every batch has `dim1` channels and every channel has
`dim2` samples, as torch tensors guarantee. -/

def rect (t : Tensor3) : Bool :=
  t.all (fun batch =>
    batch.length == dim1 t && batch.all (fun ch => ch.length == dim2 t))

/-- `torch.zeros_like(main_waveform)`: same shape, all samples zero. -/

def zerosLike (t : Tensor3) : Tensor3 :=
  t.map (fun batch => batch.map (fun ch => ch.map (fun _ => (0 : ℚ))))

/-! ### SoundFlow_SimpleCompressorNode (`nodes.py`, `apply_compression`) -/

/-- The compressor node's widget values (threshold_db, ratio, attack_ms,
release_ms, knee_db, makeup_gain_db, mix). -/

structure CompressorParams where
  threshold_db : ℚ
  ratio : ℚ
  attack_ms : ℚ
  release_ms : ℚ
  knee_db : ℚ
  makeup_gain_db : ℚ
  mix : ℚ
deriving DecidableEq, Repr

/-- The native `ProcessCompressor` call, modelled as a pure function of the
channel samples, the sample rate and the parameters.  The library mutates the
passed buffer in place, so the returned list is the buffer's final contents
and a faithful engine always returns a list of the input's length. -/

abbrev CompEngine := List ℚ → Nat → CompressorParams → List ℚ

/-- One iteration of the per-channel dispatch loop of `apply_compression`:
read `waveform_tensor[b, c]` as a NumPy copy, `continue` when it has zero
samples, otherwise invoke the engine on the copy and write the processed copy
back into the tensor.  The second component logs the engine invocations. -/

def compStep (e : CompEngine) (sr : Nat) (p : CompressorParams)
    (st : Tensor3 × List (Nat × Nat)) (bc : Nat × Nat) :
    Tensor3 × List (Nat × Nat) :=
  if (get3 st.1 bc.1 bc.2).isEmpty then st
  else (set3 st.1 bc.1 bc.2 (e (get3 st.1 bc.1 bc.2) sr p), st.2 ++ [bc])

/-- The row-major `(b, c)` iteration order of the two nested `for` loops
(`for b in range(shape[0]): for c in range(shape[1])`). -/

def rowMajor (t : Tensor3) : List (Nat × Nat) :=
  (List.range (dim0 t)).flatMap
    (fun b => (List.range (dim1 t)).map (fun c => (b, c)))

/-- The dispatch loop, run over an arbitrary processing order (the real node
uses `rowMajor`; other orders are used to state order-independence). -/

def compressRun (e : CompEngine) (sr : Nat) (p : CompressorParams)
    (t : Tensor3) (order : List (Nat × Nat)) : Tensor3 × List (Nat × Nat) :=
  order.foldl (compStep e sr p) (t, [])

/-- What a single channel becomes: untouched when empty, engine output
otherwise. -/

def compCh (e : CompEngine) (sr : Nat) (p : CompressorParams)
    (ch : List ℚ) : List ℚ :=
  if ch.isEmpty then ch else e ch sr p

/-- `SoundFlow_SimpleCompressorNode.apply_compression`: when the library
manager reports not loaded, return the input audio unchanged; otherwise clone
the waveform and run the per-channel loop in row-major order.  The second
component is the log of `ProcessCompressor` invocations. -/

def apply_compression (loaded : Bool) (e : CompEngine)
    (audio : Audio) (p : CompressorParams) : Audio × List (Nat × Nat) :=
  if !loaded then (audio, [])
  else
    let r := compressRun e audio.sample_rate p audio.waveform
      (rowMajor audio.waveform)
    ({ waveform := r.1, sample_rate := audio.sample_rate }, r.2)

/-! ### SoundFlow_DuckCompressorNode (`nodes.py`, `apply_ducking`) -/

/-- The ducking node's widget values. -/

structure DuckParams where
  main_gain_db : ℚ
  sidechain_gain_db : ℚ
  threshold_db : ℚ
  reduction_db : ℚ
  attack_ms : ℚ
  release_ms : ℚ
deriving DecidableEq, Repr

/-- The `ProcessingResult` struct returned through the FFI: the audio buffer
(`audio_ptr` together with its reported `length`) and a sample rate. -/

structure DuckResult where
  audio : List ℚ
  sample_rate : Nat
deriving DecidableEq, Repr

/-- The native `ProcessDucking` call, modelled as a pure function of the main
channel, main sample rate, (mono) sidechain buffer, sidechain sample rate and
the parameters; `none` models a null result pointer. -/

abbrev DuckEngine := List ℚ → Nat → List ℚ → Nat → DuckParams → Option DuckResult

/-- One logged `process_ducking` invocation: its `(b, c)` loop position plus
the main-channel and control buffers passed across the FFI. -/

structure DuckCall where
  b : Nat
  c : Nat
  mainCh : List ℚ
  control : List ℚ
deriving DecidableEq, Repr

/-- FFI events of one `apply_ducking` run: all `process_ducking` invocations,
the positions whose invocation returned a non-null handle, and the positions
whose handle was passed to `free_processing_result` (each loop position calls
the engine at most once, so positions identify handles). -/

structure DuckTrace where
  calls : List DuckCall
  nonNull : List (Nat × Nat)
  frees : List (Nat × Nat)
deriving DecidableEq, Repr

def emptyTrace : DuckTrace := { calls := [], nonNull := [], frees := [] }

/-- Elementwise sum of the channels of one sidechain batch, i.e.
`torch.sum(sidechain_waveform[b], dim=0)` on a rectangular batch. -/

def sumChannels : List (List ℚ) → List ℚ
  | [] => []
  | [ch] => ch
  | ch :: rest => List.zipWith (· + ·) ch (sumChannels rest)

/-- The sidechain mono mix-down, computed once per batch element before the
channel loop: the channel mean when `shape[1] > 1`, channel 0 verbatim
otherwise.  `none` models the `IndexError` the torch indexing raises when the
index does not exist (caught by the node's outer `except`). -/

def monoSidechain (sc : Tensor3) (b : Nat) : Option (List ℚ) :=
  if b < sc.length then
    if 1 < dim1 sc then
      some ((sumChannels (sc.getD b [])).map (fun x => x / (dim1 sc : ℚ)))
    else
      match sc.getD b [] with
      | [] => none
      | ch :: _ => some ch
  else none

/-- `output_waveform[b, c, :len(data)] = data` on a channel at least as long
as `data`: the written data followed by the channel's untouched tail. -/

def writeBack (orig data : List ℚ) : List ℚ := data ++ orig.drop data.length

/-- The inner `for c` loop of `apply_ducking` for batch element `b`.  Returns
the updated output tensor, the extended trace, and `true` iff the loop ran to
completion; `false` models an early `return (main_audio,)`: either a null
engine result, or the exception raised by the slice assignment when the
engine result is longer than the output channel — in which case the handle is
*not* freed, because the Python `free_processing_result` call sits after the
assignment inside the same `try` block. -/

def duckChanLoop (e : DuckEngine) (mainT : Tensor3) (msr ssr : Nat)
    (p : DuckParams) (b : Nat) (scMono : List ℚ) :
    List Nat → Tensor3 → DuckTrace → Tensor3 × DuckTrace × Bool
  | [], out, tr => (out, tr, true)
  | c :: cs, out, tr =>
    let mainCh := get3 mainT b c
    let tr1 : DuckTrace := { tr with calls := tr.calls ++ [⟨b, c, mainCh, scMono⟩] }
    match e mainCh msr scMono ssr p with
    | none => (out, tr1, false)
    | some r =>
      let tr2 : DuckTrace := { tr1 with nonNull := tr1.nonNull ++ [(b, c)] }
      if r.audio.length ≤ (get3 out b c).length then
        duckChanLoop e mainT msr ssr p b scMono cs
          (set3 out b c (writeBack (get3 out b c) r.audio))
          { tr2 with frees := tr2.frees ++ [(b, c)] }
      else
        (out, tr2, false)

/-- The outer `for b` loop of `apply_ducking`: compute the sidechain mono
mix-down (whose indexing may raise, giving the fallback), then run the
channel loop, stopping at the first early return. -/

def duckBatchLoop (e : DuckEngine) (mainT scT : Tensor3) (msr ssr : Nat)
    (p : DuckParams) :
    List Nat → Tensor3 → DuckTrace → Tensor3 × DuckTrace × Bool
  | [], out, tr => (out, tr, true)
  | b :: bs, out, tr =>
    match monoSidechain scT b with
    | none => (out, tr, false)
    | some scMono =>
      match duckChanLoop e mainT msr ssr p b scMono (List.range (dim1 mainT)) out tr with
      | (out', tr', true) => duckBatchLoop e mainT scT msr ssr p bs out' tr'
      | (out', tr', false) => (out', tr', false)

/-- The body of `apply_ducking`'s `try` block: allocate the `zeros_like`
output (as the starting tensor) and run both loops over all batches. -/

def duckRun (e : DuckEngine) (main_audio sidechain_audio : Audio)
    (p : DuckParams) : Tensor3 × DuckTrace × Bool :=
  duckBatchLoop e main_audio.waveform sidechain_audio.waveform
    main_audio.sample_rate sidechain_audio.sample_rate p
    (List.range (dim0 main_audio.waveform))
    (zerosLike main_audio.waveform) emptyTrace

/-- `SoundFlow_DuckCompressorNode.apply_ducking`.  Returns the output AUDIO
dict, the FFI trace, and a flag that is `true` on the success path (the node
returned the freshly built `processed_audio`) and `false` when the node fell
back to returning `main_audio` (library not loaded, null engine result, or a
caught exception). -/

def apply_ducking (loaded : Bool) (e : DuckEngine)
    (main_audio sidechain_audio : Audio) (p : DuckParams) :
    Audio × DuckTrace × Bool :=
  if !loaded then (main_audio, emptyTrace, false)
  else
    match duckRun e main_audio sidechain_audio p with
    | (out, tr, true) =>
      ({ waveform := out, sample_rate := main_audio.sample_rate }, tr, true)
    | (_, tr, false) => (main_audio, tr, false)

/-! ### SoundFlowLibraryManager (`libeffects.py`) -/

/-- The state of a `SoundFlowLibraryManager` relevant to the FFI helpers:
`self.lib_base_name`, `self.loaded`, and whether `self.lib` holds a non-None
library handle.  (`load_library` only sets `loaded = True` after a library
was successfully opened into `self.lib`, so module-produced managers satisfy
`loaded → hasLib`.) -/

structure Manager where
  lib_base_name : String
  loaded : Bool
  hasLib : Bool
deriving DecidableEq, Repr

/-- Calls made into the shared library by the helper modelled here. -/

inductive LibCall where
  | freeProcessingResult (handle : Nat)
deriving DecidableEq, Repr

/-- `SoundFlowLibraryManager.free_processing_result`: the guard
`if self.loaded and self.lib and result_ptr:` forwards a non-null pointer to
exactly one `FreeProcessingResult` call and otherwise does nothing.  The
returned list is the sequence of library calls performed; `none` models a
null (falsy) `result_ptr`. -/

def free_processing_result (m : Manager) (result_ptr : Option Nat) : List LibCall :=
  if m.loaded && m.hasLib && result_ptr.isSome then
    [LibCall.freeProcessingResult (result_ptr.getD 0)]
  else []

/-- Counts of the observable side effects of one `get_library_manager`
call: `SoundFlowLibraryManager(...)` constructions and `load_library()`
attempts. -/

structure ManagerEvents where
  constructions : Nat
  loadAttempts : Nat
deriving DecidableEq, Repr

/-- `SoundFlowLibraryManager.__init__` (the modelled fields). -/

def initManager (lib_base_name : String) : Manager :=
  { lib_base_name := lib_base_name, loaded := false, hasLib := false }

/-- `load_library`, abstracted over whether the platform-specific search and
`CDLL` open succeed: on success the handle is stored and `loaded` is set; on
any failure `loaded` is `False` and `load_library` returns normally. -/

def load_library (ok : String → Bool) (m : Manager) : Manager :=
  if ok m.lib_base_name then { m with loaded := true, hasLib := true }
  else { m with loaded := false }

/-- `get_library_manager`: reads the module global `_library_manager`
(`none` before the first call); constructs and loads a manager only when the
global is still `None`.  Returns the manager handed to the caller, the new
global, and the side-effect counts of this call. -/

def get_library_manager (ok : String → Bool) (lib_base_name : String)
    (g : Option Manager) : Manager × Option Manager × ManagerEvents :=
  match g with
  | none =>
    let m := load_library ok (initManager lib_base_name)
    (m, some m, { constructions := 1, loadAttempts := 1 })
  | some m => (m, some m, { constructions := 0, loadAttempts := 0 })

/-! ### Aliasing model for the frame property

PyTorch tensors are reference values, so the frame claim (neither node
mutates its caller's tensors) is stated over an explicit tensor heap.
All NumPy views taken by the nodes go through
`.detach().cpu().numpy().astype(np.float32)`, and `astype` copies, so the
engine only ever mutates copies; tensor writes in the code are the
`waveform_tensor[b, c] = ...` stores into the compressor's clone and the
`output_waveform[b, c, :n] = ...` stores into the ducking node's
`zeros_like` output, modelled as `writeCh` on those tensors' ids. -/

/-- A heap of tensors: contents per id, plus the next fresh id. -/

structure HeapState where
  heap : Nat → Tensor3
  next : Nat

/-- Allocate a fresh tensor holding `v` (`clone()` / `torch.zeros_like`). -/

def allocT (σ : HeapState) (v : Tensor3) : HeapState × Nat :=
  ({ heap := fun i => if i = σ.next then v else σ.heap i, next := σ.next + 1 },
   σ.next)

/-- In-place channel store `heap[tid][b, c] = v`. -/

def writeCh (σ : HeapState) (tid b c : Nat) (v : List ℚ) : HeapState :=
  { σ with heap := fun i => if i = tid then set3 (σ.heap i) b c v else σ.heap i }

/-- Heap-level `apply_compression`: clone the input tensor, then per channel
read the clone into a fresh NumPy copy, let the engine mutate the copy, and
store it back into the clone.  Returns the final heap and the returned
waveform's id. -/

def apply_compression_heap (loaded : Bool) (e : CompEngine) (σ : HeapState)
    (audioId : Nat) (sr : Nat) (p : CompressorParams) : HeapState × Nat :=
  if !loaded then (σ, audioId)
  else
    let a := allocT σ (σ.heap audioId)
    let σ2 := (rowMajor (σ.heap audioId)).foldl (fun s bc =>
      if (get3 (s.heap a.2) bc.1 bc.2).isEmpty then s
      else writeCh s a.2 bc.1 bc.2 (e (get3 (s.heap a.2) bc.1 bc.2) sr p)) a.1
    (σ2, a.2)

/-- Heap-level inner channel loop of `apply_ducking`: reads of the main
tensor go through copies; the only store targets the output tensor. -/

def duckChanLoopHeap (e : DuckEngine) (msr ssr : Nat) (p : DuckParams)
    (b : Nat) (scMono : List ℚ) (mainId outId : Nat) :
    List Nat → HeapState → HeapState × Bool
  | [], σ => (σ, true)
  | c :: cs, σ =>
    match e (get3 (σ.heap mainId) b c) msr scMono ssr p with
    | none => (σ, false)
    | some r =>
      if r.audio.length ≤ (get3 (σ.heap outId) b c).length then
        duckChanLoopHeap e msr ssr p b scMono mainId outId cs
          (writeCh σ outId b c (writeBack (get3 (σ.heap outId) b c) r.audio))
      else (σ, false)

/-- Heap-level outer batch loop of `apply_ducking`. -/

def duckBatchLoopHeap (e : DuckEngine) (msr ssr : Nat) (p : DuckParams)
    (mainId scId outId : Nat) :
    List Nat → HeapState → HeapState × Bool
  | [], σ => (σ, true)
  | b :: bs, σ =>
    match monoSidechain (σ.heap scId) b with
    | none => (σ, false)
    | some scMono =>
      match duckChanLoopHeap e msr ssr p b scMono mainId outId
          (List.range (dim1 (σ.heap mainId))) σ with
      | (σ2, true) => duckBatchLoopHeap e msr ssr p mainId scId outId bs σ2
      | (σ2, false) => (σ2, false)

/-- Heap-level `apply_ducking`: allocate the `zeros_like` output, run the
loops; return the final heap and the id of the waveform the node returns
(the output id on success, the main id on fallback). -/

def apply_ducking_heap (loaded : Bool) (e : DuckEngine) (σ : HeapState)
    (mainId scId : Nat) (msr ssr : Nat) (p : DuckParams) : HeapState × Nat :=
  if !loaded then (σ, mainId)
  else
    let a := allocT σ (zerosLike (σ.heap mainId))
    match duckBatchLoopHeap e msr ssr p mainId scId a.2
        (List.range (dim0 (σ.heap mainId))) a.1 with
    | (σ2, true) => (σ2, a.2)
    | (σ2, false) => (σ2, mainId)

/-! ### Theorems -/

/-! ### Basic list and tensor lemmas -/

theorem getD_set_self {α : Type} (l : List α) (i : Nat) (a d : α)
    (h : i < l.length) : (l.set i a).getD i d = a := by
  rw [List.getD_eq_getElem?_getD, List.getElem?_set_self h]
  rfl

theorem getD_set_ne {α : Type} (l : List α) {i j : Nat} (a d : α)
    (h : i ≠ j) : (l.set i a).getD j d = l.getD j d := by
  rw [List.getD_eq_getElem?_getD, List.getElem?_set_ne h,
      ← List.getD_eq_getElem?_getD]

theorem getD_of_length_le {α : Type} (l : List α) {i : Nat} (d : α)
    (h : l.length ≤ i) : l.getD i d = d := by
  rw [List.getD_eq_getElem?_getD, List.getElem?_eq_none h]
  rfl

theorem getD_map {α β : Type} (f : α → β) (l : List α) (n : Nat) (d : α)
    (d' : β) (hd : f d = d') : (l.map f).getD n d' = f (l.getD n d) := by
  rw [← hd, List.getD_eq_getElem?_getD, List.getElem?_map,
      List.getD_eq_getElem?_getD]
  cases l[n]? <;> rfl

theorem length_set3 (t : Tensor3) (b c : Nat) (v : List ℚ) :
    (set3 t b c v).length = t.length := by
  simp [set3]

theorem get3_set3_ne (t : Tensor3) {b c b' c' : Nat} (v : List ℚ)
    (h : (b, c) ≠ (b', c')) : get3 (set3 t b c v) b' c' = get3 t b' c' := by
  unfold get3 set3
  rcases eq_or_ne b b' with rfl | hb
  · have hc : c ≠ c' := fun hc => h (by rw [hc])
    by_cases hlen : b < t.length
    · rw [getD_set_self t b ((t.getD b []).set c v) [] hlen,
          getD_set_ne (t.getD b []) v [] hc]
    · rw [List.set_eq_of_length_le (Nat.le_of_not_lt hlen)]
  · rw [getD_set_ne t ((t.getD b []).set c v) [] hb]

theorem get3_set3_self (t : Tensor3) {b c : Nat} (v : List ℚ)
    (hb : b < t.length) (hc : c < (t.getD b []).length) :
    get3 (set3 t b c v) b c = v := by
  unfold get3 set3
  rw [getD_set_self t b ((t.getD b []).set c v) [] hb,
      getD_set_self (t.getD b []) c v [] hc]

/-- An out-of-range channel read gives the empty list. -/

theorem get3_out_of_range (t : Tensor3) {b c : Nat}
    (h : ¬ (b < t.length ∧ c < (t.getD b []).length)) : get3 t b c = [] := by
  unfold get3
  by_cases hb : b < t.length
  · exact getD_of_length_le (t.getD b []) []
      (Nat.le_of_not_lt (fun hlt => h ⟨hb, hlt⟩))
  · rw [getD_of_length_le t [] (Nat.le_of_not_lt hb)]
    rfl

/-- Writing a value of the channel's current length preserves the shape
skeleton. -/

theorem shape3_set3 (t : Tensor3) (b c : Nat) (v : List ℚ)
    (hv : v.length = (get3 t b c).length) : shape3 (set3 t b c v) = shape3 t := by
  unfold shape3 set3
  apply List.ext_getElem?
  intro n
  simp only [List.getElem?_map]
  rcases eq_or_ne b n with rfl | hb
  · by_cases hblen : b < t.length
    · rw [List.getElem?_set_self hblen]
      have ht : t[b]? = some (t.getD b []) := by
        rw [List.getD_eq_getElem?_getD]
        rcases hx : t[b]? with _ | batch
        · have := List.getElem?_eq_none_iff.mp hx
          omega
        · rfl
      rw [ht]
      show some (((t.getD b []).set c v).map List.length)
         = some ((t.getD b []).map List.length)
      congr 1
      apply List.ext_getElem?
      intro m
      simp only [List.getElem?_map]
      rcases eq_or_ne c m with rfl | hc
      · by_cases hclen : c < (t.getD b []).length
        · rw [List.getElem?_set_self hclen]
          have hch : (t.getD b [])[c]? = some (get3 t b c) := by
            unfold get3
            rw [List.getD_eq_getElem?_getD (t.getD b []) c []]
            rcases hx : (t.getD b [])[c]? with _ | ch
            · have := List.getElem?_eq_none_iff.mp hx
              omega
            · rfl
          rw [hch]
          show some v.length = some (get3 t b c).length
          rw [hv]
        · rw [List.set_eq_of_length_le (Nat.le_of_not_lt hclen)]
      · rw [List.getElem?_set_ne hc]
    · rw [List.set_eq_of_length_le (Nat.le_of_not_lt hblen)]
  · rw [List.getElem?_set_ne hb]

theorem shape3_zerosLike (t : Tensor3) : shape3 (zerosLike t) = shape3 t := by
  unfold shape3 zerosLike
  simp [Function.comp]

/-- `get3` of a `zerosLike` tensor: the channel with all samples zeroed. -/

theorem get3_zerosLike (t : Tensor3) (b c : Nat) :
    get3 (zerosLike t) b c = (get3 t b c).map (fun _ => (0 : ℚ)) := by
  unfold get3 zerosLike
  rw [getD_map (fun batch => batch.map (fun ch => ch.map (fun _ => (0 : ℚ))))
        t b [] [] rfl,
      getD_map (fun ch => ch.map (fun _ => (0 : ℚ))) (t.getD b []) c [] [] rfl]

/-! ### Compressor loop characterization -/

theorem mem_rowMajor (t : Tensor3) (b c : Nat) :
    (b, c) ∈ rowMajor t ↔ b < dim0 t ∧ c < dim1 t := by
  unfold rowMajor
  simp only [List.mem_flatMap, List.mem_map, List.mem_range]
  constructor
  · rintro ⟨b', hb', c', hc', heq⟩
    obtain ⟨rfl, rfl⟩ : b' = b ∧ c' = c := by
      constructor <;> [exact congrArg Prod.fst heq; exact congrArg Prod.snd heq]
    exact ⟨hb', hc'⟩
  · rintro ⟨hb, hc⟩
    exact ⟨b, hb, c, hc, rfl⟩

theorem nodup_rowMajor (t : Tensor3) : (rowMajor t).Nodup := by
  unfold rowMajor
  rw [List.nodup_flatMap]
  constructor
  · intro b _
    exact List.Nodup.map (fun c c' h => congrArg Prod.snd h) (List.nodup_range (dim1 t))
  · apply List.Pairwise.imp _ (List.pairwise_lt_range (dim0 t))
    intro b b' hlt x hx hx'
    simp only [List.mem_map, List.mem_range] at hx hx'
    obtain ⟨c, _, rfl⟩ := hx
    obtain ⟨c', _, heq⟩ := hx'
    have : b' = b := congrArg Prod.fst heq
    omega

/-- Full characterization of the compressor dispatch loop: provided the
processing order visits no `(b, c)` pair twice and the starting tensor still
holds the original data at every unvisited pair, the final log is the list of
visited pairs with a nonempty channel (in visiting order) and every channel
holds `compCh` of its original data. -/

theorem compressRun_spec (e : CompEngine) (sr : Nat) (p : CompressorParams)
    (orig : Tensor3) :
    ∀ (o : List (Nat × Nat)) (t : Tensor3) (lg : List (Nat × Nat)),
      o.Nodup →
      (∀ x ∈ o, get3 t x.1 x.2 = get3 orig x.1 x.2) →
      (o.foldl (compStep e sr p) (t, lg)).2
          = lg ++ o.filter (fun bc => !(get3 orig bc.1 bc.2).isEmpty)
        ∧ ∀ b c, get3 (o.foldl (compStep e sr p) (t, lg)).1 b c
          = if (b, c) ∈ o then compCh e sr p (get3 orig b c) else get3 t b c := by
  intro o
  induction o with
  | nil =>
    intro t lg _ _
    refine ⟨by simp, fun b c => ?_⟩
    simp
  | cons x rest ih =>
    intro t lg hnd hinv
    have hx : get3 t x.1 x.2 = get3 orig x.1 x.2 := hinv x (List.mem_cons_self x rest)
    have hxrest : x ∉ rest := (List.nodup_cons.mp hnd).1
    have hndrest : rest.Nodup := (List.nodup_cons.mp hnd).2
    show (rest.foldl (compStep e sr p) (compStep e sr p (t, lg) x)).2 = _
       ∧ ∀ b c, get3 (rest.foldl (compStep e sr p) (compStep e sr p (t, lg) x)).1 b c = _
    by_cases hch : (get3 t x.1 x.2).isEmpty
    · have hstep : compStep e sr p (t, lg) x = (t, lg) := by
        unfold compStep
        rw [if_pos hch]
      rw [hstep]
      obtain ⟨ihlog, ihval⟩ := ih t lg hndrest
        (fun y hy => hinv y (List.mem_cons_of_mem x hy))
      constructor
      · rw [ihlog, List.filter_cons]
        have hfalse : (!(get3 orig x.1 x.2).isEmpty) = false := by
          rw [← hx, hch]
          rfl
        rw [hfalse]
        simp
      · intro b c
        rw [ihval b c]
        rcases eq_or_ne (b, c) x with rfl | hne
        · have hnotmem : (b, c) ∉ rest := hxrest
          rw [if_neg hnotmem, if_pos (List.mem_cons_self _ _)]
          unfold compCh
          rw [← hx, if_pos hch]
        · by_cases hmem : (b, c) ∈ rest
          · rw [if_pos hmem, if_pos (List.mem_cons_of_mem x hmem)]
          · rw [if_neg hmem, if_neg (fun hm =>
              (List.mem_cons.mp hm).elim (fun h => hne h) (fun h => hmem h))]
    · have hstep : compStep e sr p (t, lg) x
          = (set3 t x.1 x.2 (e (get3 t x.1 x.2) sr p), lg ++ [x]) := by
        unfold compStep
        rw [if_neg hch]
      rw [hstep]
      have hrange : x.1 < t.length ∧ x.2 < (t.getD x.1 []).length := by
        by_contra hcon
        exact hch (by rw [get3_out_of_range t hcon]; rfl)
      obtain ⟨ihlog, ihval⟩ := ih (set3 t x.1 x.2 (e (get3 t x.1 x.2) sr p)) (lg ++ [x])
        hndrest
        (fun y hy => by
          have hne : x ≠ y := fun h => hxrest (h ▸ hy)
          rw [get3_set3_ne t _ (by
            intro h
            exact hne (by
              have h1 : x.1 = y.1 := congrArg Prod.fst h
              have h2 : x.2 = y.2 := congrArg Prod.snd h
              exact Prod.ext h1 h2))]
          exact hinv y (List.mem_cons_of_mem x hy))
      have hch' : (get3 t x.1 x.2).isEmpty = false := by
        cases h : (get3 t x.1 x.2).isEmpty
        · rfl
        · exact absurd h hch
      constructor
      · rw [ihlog, List.filter_cons]
        have htrue : (!(get3 orig x.1 x.2).isEmpty) = true := by
          rw [← hx, hch']
          rfl
        rw [htrue]
        simp
      · intro b c
        rw [ihval b c]
        rcases eq_or_ne (b, c) x with rfl | hne
        · have hnotmem : (b, c) ∉ rest := hxrest
          rw [if_neg hnotmem, if_pos (List.mem_cons_self _ _)]
          rw [get3_set3_self t _ hrange.1 hrange.2]
          unfold compCh
          rw [← hx, if_neg hch]
        · by_cases hmem : (b, c) ∈ rest
          · rw [if_pos hmem, if_pos (List.mem_cons_of_mem x hmem)]
          · rw [if_neg hmem, if_neg (fun hm =>
              (List.mem_cons.mp hm).elim (fun h => hne h) (fun h => hmem h)),
                get3_set3_ne t _ (fun h => hne (by
                  have h1 : b = x.1 := (congrArg Prod.fst h).symm
                  have h2 : c = x.2 := (congrArg Prod.snd h).symm
                  exact Prod.ext h1 h2))]

/-- The dispatch loop preserves the shape skeleton whenever the engine is
length-preserving (which the in-place FFI call always is). -/

theorem compressRun_shape (e : CompEngine) (sr : Nat) (p : CompressorParams)
    (hlen : ∀ ch, (e ch sr p).length = ch.length) :
    ∀ (o : List (Nat × Nat)) (t : Tensor3) (lg : List (Nat × Nat)),
      shape3 ((o.foldl (compStep e sr p) (t, lg)).1) = shape3 t := by
  intro o
  induction o with
  | nil => intro t lg; rfl
  | cons x rest ih =>
    intro t lg
    show shape3 ((rest.foldl (compStep e sr p) (compStep e sr p (t, lg) x)).1) = _
    by_cases hch : (get3 t x.1 x.2).isEmpty
    · rw [show compStep e sr p (t, lg) x = (t, lg) by unfold compStep; rw [if_pos hch]]
      exact ih t lg
    · rw [show compStep e sr p (t, lg) x
          = (set3 t x.1 x.2 (e (get3 t x.1 x.2) sr p), lg ++ [x]) by
        unfold compStep; rw [if_neg hch]]
      rw [ih _ _]
      exact shape3_set3 t x.1 x.2 _ (hlen _)

/-! ### Ducking loop lemmas -/

theorem length_writeBack (orig data : List ℚ) (h : data.length ≤ orig.length) :
    (writeBack orig data).length = orig.length := by
  unfold writeBack
  rw [List.length_append, List.length_drop]
  omega

/-- `get3` after `set3` at the same position, without range side conditions. -/

theorem get3_set3_self' (t : Tensor3) (b c : Nat) (v : List ℚ) :
    get3 (set3 t b c v) b c
      = if b < t.length ∧ c < (t.getD b []).length then v else get3 t b c := by
  by_cases hb : b < t.length
  · by_cases hc : c < (t.getD b []).length
    · rw [if_pos ⟨hb, hc⟩]
      exact get3_set3_self t v hb hc
    · rw [if_neg (fun h => hc h.2)]
      unfold set3
      rw [List.set_eq_of_length_le (Nat.le_of_not_lt hc)]
      unfold get3
      rw [getD_set_self t b (t.getD b []) [] hb]
  · rw [if_neg (fun h => hb h.1)]
    unfold set3
    rw [List.set_eq_of_length_le (Nat.le_of_not_lt hb)]

/-- Writing `writeBack` of the current channel back to its own position
always yields exactly that value (out of range, both sides collapse to `[]`). -/

theorem get3_set3_writeBack (t : Tensor3) (b c : Nat) (data : List ℚ)
    (h : data.length ≤ (get3 t b c).length) :
    get3 (set3 t b c (writeBack (get3 t b c) data)) b c
      = writeBack (get3 t b c) data := by
  rw [get3_set3_self']
  by_cases hr : b < t.length ∧ c < (t.getD b []).length
  · rw [if_pos hr]
  · rw [if_neg hr]
    have hnil : get3 t b c = [] := get3_out_of_range t hr
    have hdata : data = [] := by
      rw [hnil] at h
      exact List.eq_nil_of_length_eq_zero (Nat.le_zero.mp h)
    rw [hnil, hdata]
    rfl

theorem duckChanLoop_shape (e : DuckEngine) (mainT : Tensor3) (msr ssr : Nat)
    (p : DuckParams) (b : Nat) (scMono : List ℚ) :
    ∀ (cs : List Nat) (out : Tensor3) (tr : DuckTrace),
      shape3 ((duckChanLoop e mainT msr ssr p b scMono cs out tr).1) = shape3 out := by
  intro cs
  induction cs with
  | nil => intro out tr; rfl
  | cons c cs ih =>
    intro out tr
    simp only [duckChanLoop]
    split
    · rfl
    · split
      · next hle =>
        rw [ih]
        exact shape3_set3 out b c _ (length_writeBack _ _ hle)
      · rfl

theorem duckBatchLoop_shape (e : DuckEngine) (mainT scT : Tensor3)
    (msr ssr : Nat) (p : DuckParams) :
    ∀ (bs : List Nat) (out : Tensor3) (tr : DuckTrace),
      shape3 ((duckBatchLoop e mainT scT msr ssr p bs out tr).1) = shape3 out := by
  intro bs
  induction bs with
  | nil => intro out tr; rfl
  | cons b bs ih =>
    intro out tr
    simp only [duckBatchLoop]
    split
    · rfl
    · next scMono hsc =>
      split
      · next out' tr' hloop =>
        rw [ih]
        have hall := duckChanLoop_shape e mainT msr ssr p b scMono
          (List.range (dim1 mainT)) out tr
        rw [hloop] at hall
        exact hall
      · next out' tr' hloop =>
        have hall := duckChanLoop_shape e mainT msr ssr p b scMono
          (List.range (dim1 mainT)) out tr
        rw [hloop] at hall
        exact hall

/-- Success-path characterization of the channel loop: when the engine always
returns a non-null result no longer than the corresponding main channel, the
loop completes, logs one call, one non-null handle and one free per channel
in loop order, and writes each engine result into its channel position over
the zero-initialized tail. -/

theorem duckChanLoop_ok (e : DuckEngine) (mainT : Tensor3) (msr ssr : Nat)
    (p : DuckParams) (b : Nat) (scMono : List ℚ) (res : List ℚ → DuckResult)
    (hE : ∀ ch, e ch msr scMono ssr p = some (res ch))
    (hlen : ∀ ch, (res ch).audio.length ≤ ch.length) :
    ∀ (cs : List Nat) (out : Tensor3) (tr : DuckTrace),
      cs.Nodup →
      (∀ c, (get3 out b c).length = (get3 mainT b c).length) →
      duckChanLoop e mainT msr ssr p b scMono cs out tr
        = ((duckChanLoop e mainT msr ssr p b scMono cs out tr).1,
           { calls := tr.calls ++ cs.map (fun c => ⟨b, c, get3 mainT b c, scMono⟩),
             nonNull := tr.nonNull ++ cs.map (fun c => (b, c)),
             frees := tr.frees ++ cs.map (fun c => (b, c)) }, true)
      ∧ ∀ b' c', get3 (duckChanLoop e mainT msr ssr p b scMono cs out tr).1 b' c'
          = if b' = b ∧ c' ∈ cs
            then writeBack (get3 out b c') ((res (get3 mainT b c')).audio)
            else get3 out b' c' := by
  intro cs
  induction cs with
  | nil =>
    intro out tr _ _
    refine ⟨by simp [duckChanLoop], fun b' c' => ?_⟩
    simp [duckChanLoop]
  | cons c cs ih =>
    intro out tr hnd hshape
    have hcond : (res (get3 mainT b c)).audio.length ≤ (get3 out b c).length := by
      rw [hshape c]
      exact hlen (get3 mainT b c)
    have hstep : duckChanLoop e mainT msr ssr p b scMono (c :: cs) out tr
        = duckChanLoop e mainT msr ssr p b scMono cs
            (set3 out b c (writeBack (get3 out b c) ((res (get3 mainT b c)).audio)))
            { calls := tr.calls ++ [⟨b, c, get3 mainT b c, scMono⟩],
              nonNull := tr.nonNull ++ [(b, c)],
              frees := tr.frees ++ [(b, c)] } := by
      simp only [duckChanLoop, hE (get3 mainT b c)]
      rw [if_pos hcond]
    have hcrest : c ∉ cs := (List.nodup_cons.mp hnd).1
    have hndrest : cs.Nodup := (List.nodup_cons.mp hnd).2
    have hshape1 : ∀ c', (get3 (set3 out b c
        (writeBack (get3 out b c) ((res (get3 mainT b c)).audio))) b c').length
        = (get3 mainT b c').length := by
      intro c'
      rcases eq_or_ne c' c with rfl | hne
      · rw [get3_set3_writeBack out b c' _ hcond,
            length_writeBack _ _ hcond, hshape c']
      · rw [get3_set3_ne out _ (fun h => hne (congrArg Prod.snd h).symm)]
        exact hshape c'
    obtain ⟨ihtr, ihval⟩ := ih
      (set3 out b c (writeBack (get3 out b c) ((res (get3 mainT b c)).audio)))
      { calls := tr.calls ++ [⟨b, c, get3 mainT b c, scMono⟩],
        nonNull := tr.nonNull ++ [(b, c)],
        frees := tr.frees ++ [(b, c)] }
      hndrest hshape1
    constructor
    · rw [hstep, ihtr]
      simp [hstep]
    · intro b' c'
      rw [hstep, ihval b' c']
      rcases eq_or_ne b' b with rfl | hbne
      · rcases eq_or_ne c' c with rfl | hcne
        · rw [if_neg (fun h => hcrest h.2),
              if_pos ⟨rfl, List.mem_cons_self _ _⟩]
          exact get3_set3_writeBack out b' c' _ hcond
        · by_cases hmem : c' ∈ cs
          · rw [if_pos ⟨rfl, hmem⟩, if_pos ⟨rfl, List.mem_cons_of_mem c hmem⟩,
                get3_set3_ne out _ (fun h => hcne (congrArg Prod.snd h).symm)]
          · rw [if_neg (fun h => hmem h.2),
                if_neg (fun h => (List.mem_cons.mp h.2).elim (fun h1 => hcne h1) hmem),
                get3_set3_ne out _ (fun h => hcne (congrArg Prod.snd h).symm)]
      · rw [if_neg (fun h => hbne h.1), if_neg (fun h => hbne h.1),
            get3_set3_ne out _ (fun h => hbne (congrArg Prod.fst h).symm)]

/-- Success-path characterization of the whole batch loop of
`apply_ducking`: when every sidechain mono mix-down exists and the engine
always returns a non-null result no longer than the main channel, the loop
completes, calling the engine exactly once per `(b, c)` pair in row-major
order, freeing every handle, reusing the batch's mono control buffer for all
its channels, and writing each result into its `(b, c)` position. -/

theorem duckBatchLoop_ok (e : DuckEngine) (mainT scT : Tensor3)
    (msr ssr : Nat) (p : DuckParams) (res : List ℚ → List ℚ → DuckResult)
    (hE : ∀ ch s, e ch msr s ssr p = some (res ch s))
    (hlen : ∀ ch s, (res ch s).audio.length ≤ ch.length)
    (sMono : Nat → List ℚ) :
    ∀ (bs : List Nat) (out : Tensor3) (tr : DuckTrace),
      bs.Nodup →
      (∀ b ∈ bs, monoSidechain scT b = some (sMono b)) →
      (∀ b c, (get3 out b c).length = (get3 mainT b c).length) →
      duckBatchLoop e mainT scT msr ssr p bs out tr
        = ((duckBatchLoop e mainT scT msr ssr p bs out tr).1,
           { calls := tr.calls ++ bs.flatMap (fun b =>
               (List.range (dim1 mainT)).map (fun c => ⟨b, c, get3 mainT b c, sMono b⟩)),
             nonNull := tr.nonNull ++ bs.flatMap (fun b =>
               (List.range (dim1 mainT)).map (fun c => (b, c))),
             frees := tr.frees ++ bs.flatMap (fun b =>
               (List.range (dim1 mainT)).map (fun c => (b, c))) }, true)
      ∧ ∀ b c, get3 (duckBatchLoop e mainT scT msr ssr p bs out tr).1 b c
          = if b ∈ bs ∧ c < dim1 mainT
            then writeBack (get3 out b c) ((res (get3 mainT b c) (sMono b)).audio)
            else get3 out b c := by
  intro bs
  induction bs with
  | nil =>
    intro out tr _ _ _
    refine ⟨by simp [duckBatchLoop], fun b c => ?_⟩
    simp [duckBatchLoop]
  | cons b bs ih =>
    intro out tr hnd hm hshape
    have hmono : monoSidechain scT b = some (sMono b) :=
      hm b (List.mem_cons_self b bs)
    obtain ⟨chtr, chval⟩ := duckChanLoop_ok e mainT msr ssr p b (sMono b)
      (fun ch => res ch (sMono b)) (fun ch => hE ch (sMono b))
      (fun ch => hlen ch (sMono b)) (List.range (dim1 mainT)) out tr
      (List.nodup_range (dim1 mainT)) (fun c => hshape b c)
    have hstep : duckBatchLoop e mainT scT msr ssr p (b :: bs) out tr
        = duckBatchLoop e mainT scT msr ssr p bs
            ((duckChanLoop e mainT msr ssr p b (sMono b)
               (List.range (dim1 mainT)) out tr).1)
            { calls := tr.calls ++ (List.range (dim1 mainT)).map
                (fun c => ⟨b, c, get3 mainT b c, sMono b⟩),
              nonNull := tr.nonNull ++ (List.range (dim1 mainT)).map (fun c => (b, c)),
              frees := tr.frees ++ (List.range (dim1 mainT)).map (fun c => (b, c)) } := by
      simp only [duckBatchLoop, hmono]
      rw [chtr]
    have hbrest : b ∉ bs := (List.nodup_cons.mp hnd).1
    have hndrest : bs.Nodup := (List.nodup_cons.mp hnd).2
    have hshape1 : ∀ b' c,
        (get3 (duckChanLoop e mainT msr ssr p b (sMono b)
          (List.range (dim1 mainT)) out tr).1 b' c).length
        = (get3 mainT b' c).length := by
      intro b' c
      rw [chval b' c]
      by_cases hif : b' = b ∧ c ∈ List.range (dim1 mainT)
      · rw [if_pos hif]
        obtain ⟨rfl, _⟩ := hif
        rw [length_writeBack _ _ (by rw [hshape b' c]; exact hlen _ _), hshape b' c]
      · rw [if_neg hif]
        exact hshape b' c
    obtain ⟨ihtr, ihval⟩ := ih
      ((duckChanLoop e mainT msr ssr p b (sMono b)
        (List.range (dim1 mainT)) out tr).1)
      { calls := tr.calls ++ (List.range (dim1 mainT)).map
          (fun c => ⟨b, c, get3 mainT b c, sMono b⟩),
        nonNull := tr.nonNull ++ (List.range (dim1 mainT)).map (fun c => (b, c)),
        frees := tr.frees ++ (List.range (dim1 mainT)).map (fun c => (b, c)) }
      hndrest (fun b' hb' => hm b' (List.mem_cons_of_mem b hb')) hshape1
    constructor
    · rw [hstep, ihtr]
      simp [hstep]
    · intro b' c
      rw [hstep, ihval b' c]
      rcases eq_or_ne b' b with rfl | hbne
      · rw [if_neg (show ¬(b' ∈ bs ∧ c < dim1 mainT) from fun h => hbrest h.1),
            chval b' c]
        by_cases hc : c < dim1 mainT
        · rw [if_pos (show b' = b' ∧ c ∈ List.range (dim1 mainT) from
                ⟨rfl, List.mem_range.mpr hc⟩),
              if_pos (show b' ∈ b' :: bs ∧ c < dim1 mainT from
                ⟨List.mem_cons_self b' bs, hc⟩)]
        · rw [if_neg (show ¬(b' = b' ∧ c ∈ List.range (dim1 mainT)) from
                fun h => hc (List.mem_range.mp h.2)),
              if_neg (show ¬(b' ∈ b' :: bs ∧ c < dim1 mainT) from fun h => hc h.2)]
      · have hCH : get3 (duckChanLoop e mainT msr ssr p b (sMono b)
            (List.range (dim1 mainT)) out tr).1 b' c = get3 out b' c := by
          rw [chval b' c]
          exact if_neg (fun h => hbne h.1)
        rw [hCH]
        by_cases hmem : b' ∈ bs
        · by_cases hc : c < dim1 mainT
          · rw [if_pos (show b' ∈ bs ∧ c < dim1 mainT from ⟨hmem, hc⟩),
                if_pos (show b' ∈ b :: bs ∧ c < dim1 mainT from
                  ⟨List.mem_cons_of_mem b hmem, hc⟩)]
          · rw [if_neg (show ¬(b' ∈ bs ∧ c < dim1 mainT) from fun h => hc h.2),
                if_neg (show ¬(b' ∈ b :: bs ∧ c < dim1 mainT) from fun h => hc h.2)]
        · rw [if_neg (show ¬(b' ∈ bs ∧ c < dim1 mainT) from fun h => hmem h.1),
              if_neg (show ¬(b' ∈ b :: bs ∧ c < dim1 mainT) from fun h =>
                (List.mem_cons.mp h.1).elim (fun h1 => hbne h1) hmem)]

/-! ### Heap frame lemmas -/

theorem writeCh_frame (σ : HeapState) (tid b c : Nat) (v : List ℚ) {i : Nat}
    (h : i ≠ tid) : (writeCh σ tid b c v).heap i = σ.heap i := by
  unfold writeCh
  simp only
  rw [if_neg h]

theorem allocT_frame (σ : HeapState) (v : Tensor3) {i : Nat}
    (h : i < σ.next) : (allocT σ v).1.heap i = σ.heap i := by
  unfold allocT
  simp only
  rw [if_neg (Nat.ne_of_lt h)]

theorem compFold_frame (e : CompEngine) (sr : Nat) (p : CompressorParams)
    (cloneId : Nat) {i : Nat} (h : i ≠ cloneId) :
    ∀ (l : List (Nat × Nat)) (s : HeapState),
      ((l.foldl (fun s bc =>
        if (get3 (s.heap cloneId) bc.1 bc.2).isEmpty then s
        else writeCh s cloneId bc.1 bc.2 (e (get3 (s.heap cloneId) bc.1 bc.2) sr p)) s).heap) i
      = s.heap i := by
  intro l
  induction l with
  | nil => intro s; rfl
  | cons bc l ih =>
    intro s
    rw [List.foldl_cons, ih]
    by_cases hch : (get3 (s.heap cloneId) bc.1 bc.2).isEmpty
    · rw [if_pos hch]
    · rw [if_neg hch]
      exact writeCh_frame s cloneId bc.1 bc.2 _ h

theorem duckChanLoopHeap_frame (e : DuckEngine) (msr ssr : Nat)
    (p : DuckParams) (b : Nat) (scMono : List ℚ) (mainId outId : Nat)
    {i : Nat} (h : i ≠ outId) :
    ∀ (cs : List Nat) (σ : HeapState),
      ((duckChanLoopHeap e msr ssr p b scMono mainId outId cs σ).1.heap) i
        = σ.heap i := by
  intro cs
  induction cs with
  | nil => intro σ; rfl
  | cons c cs ih =>
    intro σ
    simp only [duckChanLoopHeap]
    split
    · rfl
    · split
      · rw [ih]
        exact writeCh_frame σ outId b c _ h
      · rfl

theorem duckBatchLoopHeap_frame (e : DuckEngine) (msr ssr : Nat)
    (p : DuckParams) (mainId scId outId : Nat) {i : Nat} (h : i ≠ outId) :
    ∀ (bs : List Nat) (σ : HeapState),
      ((duckBatchLoopHeap e msr ssr p mainId scId outId bs σ).1.heap) i
        = σ.heap i := by
  intro bs
  induction bs with
  | nil => intro σ; rfl
  | cons b bs ih =>
    intro σ
    simp only [duckBatchLoopHeap]
    split
    · rfl
    · next scMono hsc =>
      split
      · next σ2 hloop =>
        rw [ih]
        have hfr := duckChanLoopHeap_frame e msr ssr p b scMono mainId outId h
          (List.range (dim1 (σ.heap mainId))) σ
        rw [hloop] at hfr
        exact hfr
      · next σ2 hloop =>
        have hfr := duckChanLoopHeap_frame e msr ssr p b scMono mainId outId h
          (List.range (dim1 (σ.heap mainId))) σ
        rw [hloop] at hfr
        exact hfr

/-! ### Sidechain mix-down and rectangularity lemmas -/

theorem getD_zipWith_add :
    ∀ (a b : List ℚ) (i : Nat), i < a.length → i < b.length →
      (List.zipWith (· + ·) a b).getD i 0 = a.getD i 0 + b.getD i 0
  | [], _, i, ha, _ => absurd ha (Nat.not_lt_zero i)
  | _ :: _, [], i, _, hb => absurd hb (Nat.not_lt_zero i)
  | x :: a, y :: b, 0, _, _ => rfl
  | x :: a, y :: b, i + 1, ha, hb =>
      getD_zipWith_add a b i (Nat.lt_of_succ_lt_succ ha) (Nat.lt_of_succ_lt_succ hb)

theorem length_sumChannels (L : Nat) :
    ∀ (batch : List (List ℚ)), batch ≠ [] → (∀ ch ∈ batch, ch.length = L) →
      (sumChannels batch).length = L
  | [], h, _ => absurd rfl h
  | [ch], _, hall => hall ch (List.mem_singleton_self ch)
  | ch :: ch2 :: rest, _, hall => by
      show (List.zipWith (· + ·) ch (sumChannels (ch2 :: rest))).length = L
      rw [List.length_zipWith, hall ch (List.mem_cons_self _ _),
          length_sumChannels L (ch2 :: rest) (List.cons_ne_nil _ _)
            (fun c hc => hall c (List.mem_cons_of_mem ch hc))]
      exact Nat.min_self L

theorem getD_sumChannels (L : Nat) :
    ∀ (batch : List (List ℚ)), batch ≠ [] → (∀ ch ∈ batch, ch.length = L) →
      ∀ i, i < L →
      (sumChannels batch).getD i 0 = (batch.map (fun ch => ch.getD i 0)).sum
  | [], h, _ => absurd rfl h
  | [ch], _, _ => by
      intro i hi
      show ch.getD i 0 = (List.map (fun ch => ch.getD i 0) [ch]).sum
      simp
  | ch :: ch2 :: rest, _, hall => by
      intro i hi
      show (List.zipWith (· + ·) ch (sumChannels (ch2 :: rest))).getD i 0 = _
      rw [getD_zipWith_add ch (sumChannels (ch2 :: rest)) i
            (by rw [hall ch (List.mem_cons_self _ _)]; exact hi)
            (by rw [length_sumChannels L (ch2 :: rest) (List.cons_ne_nil _ _)
                (fun c hc => hall c (List.mem_cons_of_mem ch hc))]; exact hi),
          getD_sumChannels L (ch2 :: rest) (List.cons_ne_nil _ _)
            (fun c hc => hall c (List.mem_cons_of_mem ch hc)) i hi]
      simp

/-- In a rectangular tensor every in-range batch has exactly `dim1` rows. -/

theorem rect_batch_length (t : Tensor3) (hr : rect t = true) {b : Nat}
    (hb : b < t.length) : (t.getD b []).length = dim1 t := by
  unfold rect at hr
  rw [List.all_eq_true] at hr
  have hmem : t.getD b [] ∈ t := by
    rw [List.getD_eq_getElem?_getD, List.getElem?_eq_getElem hb]
    exact List.getElem_mem hb
  have hthis := hr (t.getD b []) hmem
  rw [Bool.and_eq_true] at hthis
  exact eq_of_beq hthis.1

/-- In a rectangular tensor every channel of an in-range batch has exactly
`dim2` samples. -/

theorem rect_channels (t : Tensor3) (hr : rect t = true) {b : Nat}
    (hb : b < t.length) : ∀ ch ∈ t.getD b [], ch.length = dim2 t := by
  intro ch hch
  unfold rect at hr
  rw [List.all_eq_true] at hr
  have hmem : t.getD b [] ∈ t := by
    rw [List.getD_eq_getElem?_getD, List.getElem?_eq_getElem hb]
    exact List.getElem_mem hb
  have hthis := hr (t.getD b []) hmem
  rw [Bool.and_eq_true, List.all_eq_true] at hthis
  exact eq_of_beq (hthis.2 ch hch)

/-! ### Length preservation and extensionality for the compressor loop -/

theorem batchlen_set3 (t : Tensor3) (b c : Nat) (v : List ℚ) (b' : Nat) :
    ((set3 t b c v).getD b' []).length = (t.getD b' []).length := by
  unfold set3
  rcases eq_or_ne b b' with rfl | hne
  · by_cases hb : b < t.length
    · rw [getD_set_self t b _ [] hb, List.length_set]
    · rw [List.set_eq_of_length_le (Nat.le_of_not_lt hb)]
  · rw [getD_set_ne t _ [] hne]

theorem compressRun_len (e : CompEngine) (sr : Nat) (p : CompressorParams) :
    ∀ (o : List (Nat × Nat)) (t : Tensor3) (lg : List (Nat × Nat)),
      ((o.foldl (compStep e sr p) (t, lg)).1).length = t.length := by
  intro o
  induction o with
  | nil => intro t lg; rfl
  | cons x rest ih =>
    intro t lg
    show ((rest.foldl (compStep e sr p) (compStep e sr p (t, lg) x)).1).length = _
    by_cases hch : (get3 t x.1 x.2).isEmpty
    · rw [show compStep e sr p (t, lg) x = (t, lg) by unfold compStep; rw [if_pos hch]]
      exact ih t lg
    · rw [show compStep e sr p (t, lg) x
          = (set3 t x.1 x.2 (e (get3 t x.1 x.2) sr p), lg ++ [x]) by
        unfold compStep; rw [if_neg hch]]
      rw [ih _ _]
      exact length_set3 t x.1 x.2 _

theorem compressRun_batchlen (e : CompEngine) (sr : Nat) (p : CompressorParams) :
    ∀ (o : List (Nat × Nat)) (t : Tensor3) (lg : List (Nat × Nat)) (b : Nat),
      (((o.foldl (compStep e sr p) (t, lg)).1).getD b []).length
        = (t.getD b []).length := by
  intro o
  induction o with
  | nil => intro t lg b; rfl
  | cons x rest ih =>
    intro t lg b
    show ((((rest.foldl (compStep e sr p) (compStep e sr p (t, lg) x)).1).getD b []).length) = _
    by_cases hch : (get3 t x.1 x.2).isEmpty
    · rw [show compStep e sr p (t, lg) x = (t, lg) by unfold compStep; rw [if_pos hch]]
      exact ih t lg b
    · rw [show compStep e sr p (t, lg) x
          = (set3 t x.1 x.2 (e (get3 t x.1 x.2) sr p), lg ++ [x]) by
        unfold compStep; rw [if_neg hch]]
      rw [ih _ _ b]
      exact batchlen_set3 t x.1 x.2 _ b

/-- Two tensors with the same outer length, the same per-batch row counts,
and the same channels everywhere are equal. -/

theorem tensor3_ext (t1 t2 : Tensor3) (hlen : t1.length = t2.length)
    (hbatch : ∀ b, (t1.getD b []).length = (t2.getD b []).length)
    (hch : ∀ b c, get3 t1 b c = get3 t2 b c) : t1 = t2 := by
  apply List.ext_getElem?
  intro b
  rcases Nat.lt_or_ge b t1.length with hb | hb
  · have hb2 : b < t2.length := by omega
    rw [List.getElem?_eq_getElem hb, List.getElem?_eq_getElem hb2]
    have e1 : t1.getD b [] = t1[b] := by
      rw [List.getD_eq_getElem?_getD, List.getElem?_eq_getElem hb]
      rfl
    have e2 : t2.getD b [] = t2[b] := by
      rw [List.getD_eq_getElem?_getD, List.getElem?_eq_getElem hb2]
      rfl
    congr 1
    apply List.ext_getElem?
    intro c
    have hbl := hbatch b
    rw [e1, e2] at hbl
    rcases Nat.lt_or_ge c (t1[b]).length with hc | hc
    · have hc2 : c < (t2[b]).length := by omega
      rw [List.getElem?_eq_getElem hc, List.getElem?_eq_getElem hc2]
      have g := hch b c
      unfold get3 at g
      rw [e1, e2, List.getD_eq_getElem?_getD, List.getElem?_eq_getElem hc,
          List.getD_eq_getElem?_getD, List.getElem?_eq_getElem hc2] at g
      exact congrArg some g
    · rw [List.getElem?_eq_none hc, List.getElem?_eq_none (by omega)]
  · rw [List.getElem?_eq_none hb, List.getElem?_eq_none (by omega)]

/-! ### Helper lemmas about the node entry points -/

theorem apply_ducking_cases (e : DuckEngine) (main sc : Audio) (p : DuckParams) :
    apply_ducking true e main sc p
      = if (duckRun e main sc p).2.2
        then ({ waveform := (duckRun e main sc p).1,
                sample_rate := main.sample_rate },
              (duckRun e main sc p).2.1, true)
        else (main, (duckRun e main sc p).2.1, false) := by
  unfold apply_ducking
  rcases h : duckRun e main sc p with ⟨out, tr, ok⟩
  cases ok <;> rfl

/-- In a rectangular tensor, channels outside the `rowMajor` index set are
empty. -/

theorem rect_out_nil (t : Tensor3) (hr : rect t = true) {b c : Nat}
    (h : (b, c) ∉ rowMajor t) : get3 t b c = [] := by
  rw [mem_rowMajor] at h
  by_cases hb : b < t.length
  · have hc : ¬ c < dim1 t := fun hc => h ⟨hb, hc⟩
    unfold get3
    exact getD_of_length_le (t.getD b []) []
      (by rw [rect_batch_length t hr hb]; exact Nat.le_of_not_lt hc)
  · exact get3_out_of_range t (fun hcon => hb hcon.1)

/-- Every call logged by the channel loop either predates it or carries the
loop's batch index, that batch's control buffer, and the main channel at its
position. -/

theorem duckChanLoop_calls (e : DuckEngine) (mainT : Tensor3) (msr ssr : Nat)
    (p : DuckParams) (b : Nat) (scMono : List ℚ) :
    ∀ (cs : List Nat) (out : Tensor3) (tr : DuckTrace),
      ∀ cl ∈ (duckChanLoop e mainT msr ssr p b scMono cs out tr).2.1.calls,
        cl ∈ tr.calls ∨
          (cl.b = b ∧ cl.control = scMono ∧ cl.mainCh = get3 mainT cl.b cl.c) := by
  intro cs
  induction cs with
  | nil => intro out tr cl hcl; exact Or.inl hcl
  | cons c cs ih =>
    intro out tr cl hcl
    simp only [duckChanLoop] at hcl
    have hnew : ∀ x ∈ tr.calls ++ [(⟨b, c, get3 mainT b c, scMono⟩ : DuckCall)],
        x ∈ tr.calls ∨
          (x.b = b ∧ x.control = scMono ∧ x.mainCh = get3 mainT x.b x.c) := by
      intro x hx
      rcases List.mem_append.mp hx with hx | hx
      · exact Or.inl hx
      · rcases List.mem_singleton.mp hx with rfl
        exact Or.inr ⟨rfl, rfl, rfl⟩
    split at hcl
    · exact hnew cl hcl
    · split at hcl
      · rcases ih _ _ cl hcl with hin | hok
        · exact hnew cl hin
        · exact Or.inr hok
      · exact hnew cl hcl

/-- Every call logged by the batch loop either predates it or carries the
mono mix-down of its own batch as control and the main channel at its
position. -/

theorem duckBatchLoop_calls (e : DuckEngine) (mainT scT : Tensor3)
    (msr ssr : Nat) (p : DuckParams) :
    ∀ (bs : List Nat) (out : Tensor3) (tr : DuckTrace),
      ∀ cl ∈ (duckBatchLoop e mainT scT msr ssr p bs out tr).2.1.calls,
        cl ∈ tr.calls ∨
          (monoSidechain scT cl.b = some cl.control
            ∧ cl.mainCh = get3 mainT cl.b cl.c) := by
  intro bs
  induction bs with
  | nil => intro out tr cl hcl; exact Or.inl hcl
  | cons b bs ih =>
    intro out tr cl hcl
    simp only [duckBatchLoop] at hcl
    split at hcl
    · exact Or.inl hcl
    · next scMono hm =>
      have hstep : ∀ x ∈ (duckChanLoop e mainT msr ssr p b scMono
          (List.range (dim1 mainT)) out tr).2.1.calls,
          x ∈ tr.calls ∨
            (monoSidechain scT x.b = some x.control
              ∧ x.mainCh = get3 mainT x.b x.c) := by
        intro x hx
        rcases duckChanLoop_calls e mainT msr ssr p b scMono
            (List.range (dim1 mainT)) out tr x hx with hin | hok
        · exact Or.inl hin
        · refine Or.inr ⟨?_, hok.2.2⟩
          rw [hok.1, hok.2.1]
          exact hm
      split at hcl
      · next out' tr' hloop =>
        rw [hloop] at hstep
        rcases ih out' tr' cl hcl with hin | hok
        · exact hstep cl hin
        · exact Or.inr hok
      · next out' tr' hloop =>
        rw [hloop] at hstep
        exact hstep cl hcl

/-! ### Claim theorems -/

/-- C1: for every audio input the waveform returned by the compressor node
(`apply_compression`) and by the ducking node (`apply_ducking`) has exactly
the same sample count and tensor shape as the (main) input waveform, on
every return path — engine success, null result, caught exceptions, and
library-not-loaded: the compressor writes each processed channel back into a
clone of the input tensor, and the ducking node allocates its output as
`zeros_like(main_waveform)` and copies at most the main channel's length
from each engine result. -/

theorem C1_shape_preserved (loaded : Bool) (e : CompEngine) (d : DuckEngine)
    (audio main sc : Audio) (cp : CompressorParams) (dp : DuckParams)
    (hlen : ∀ ch, (e ch audio.sample_rate cp).length = ch.length) :
    shape3 (apply_compression loaded e audio cp).1.waveform
        = shape3 audio.waveform
    ∧ shape3 (apply_ducking loaded d main sc dp).1.waveform
        = shape3 main.waveform := by
  constructor
  · cases loaded
    · rfl
    · show shape3 (compressRun e audio.sample_rate cp audio.waveform
        (rowMajor audio.waveform)).1 = _
      exact compressRun_shape e audio.sample_rate cp hlen
        (rowMajor audio.waveform) audio.waveform []
  · cases loaded
    · rfl
    · rw [apply_ducking_cases]
      by_cases hok : (duckRun d main sc dp).2.2 = true
      · rw [if_pos hok]
        show shape3 (duckRun d main sc dp).1 = _
        exact (duckBatchLoop_shape d main.waveform sc.waveform
          main.sample_rate sc.sample_rate dp (List.range (dim0 main.waveform))
          (zerosLike main.waveform) emptyTrace).trans (shape3_zerosLike _)
      · rw [if_neg hok]

theorem C1_witness :
    shape3 (apply_compression true (fun ch _ _ => ch.map (fun x => 2 * x))
        ⟨[[[1, 2]]], 44100⟩ ⟨-20, 4, 10, 100, 0, 0, 1⟩).1.waveform
      = shape3 ([[[1, 2]]] : Tensor3)
    ∧ shape3 (apply_ducking true (fun _ _ _ _ _ => none)
        ⟨[[[1]]], 44100⟩ ⟨[[[1]]], 44100⟩ ⟨0, 0, -24, -12, 5, 200⟩).1.waveform
      = shape3 ([[[1]]] : Tensor3) :=
  C1_shape_preserved true (fun ch _ _ => ch.map (fun x => 2 * x))
    (fun _ _ _ _ _ => none) ⟨[[[1, 2]]], 44100⟩ ⟨[[[1]]], 44100⟩
    ⟨[[[1]]], 44100⟩ ⟨-20, 4, 10, 100, 0, 0, 1⟩ ⟨0, 0, -24, -12, 5, 200⟩
    (fun ch => by simp)

/-- C2 (code bug): at this concrete input `process_ducking` returns one
non-null handle (recorded in `nonNull`) whose result buffer is longer than
the main channel; the slice assignment
`output_waveform[b, c, :len(output_channel)] = ...` raises before the
`free_processing_result` line is reached, the node falls back to returning
`main_audio`, and no free is recorded — the handle leaks, contradicting the
exactly-once ownership contract the claim states. -/

theorem C2_leak_on_result_exception :
    (apply_ducking true (fun _ _ _ _ _ => some ⟨[0, 0], 44100⟩)
        ⟨[[[1]]], 44100⟩ ⟨[[[1]]], 44100⟩ ⟨0, 0, -24, -12, 5, 200⟩).2.1.nonNull
      = [(0, 0)]
    ∧ (apply_ducking true (fun _ _ _ _ _ => some ⟨[0, 0], 44100⟩)
        ⟨[[[1]]], 44100⟩ ⟨[[[1]]], 44100⟩ ⟨0, 0, -24, -12, 5, 200⟩).2.1.frees
      = []
    ∧ (apply_ducking true (fun _ _ _ _ _ => some ⟨[0, 0], 44100⟩)
        ⟨[[[1]]], 44100⟩ ⟨[[[1]]], 44100⟩ ⟨0, 0, -24, -12, 5, 200⟩).1
      = ⟨[[[1]]], 44100⟩ := by
  decide

/-- C3: whenever the engine cannot be invoked or fails, the calling layer
returns the original audio unmodified: `apply_compression` returns its input
when the library manager reports not loaded, and `apply_ducking` returns the
original `main_audio` when the library is not loaded and whenever its
processing loop aborts (null `process_ducking` result, or an exception
caught while reading the sidechain or the result). -/

theorem C3_fallback_passthrough (e : CompEngine) (d : DuckEngine)
    (audio main sc : Audio) (cp : CompressorParams) (dp : DuckParams) :
    (apply_compression false e audio cp).1 = audio
    ∧ (apply_ducking false d main sc dp).1 = main
    ∧ ((duckRun d main sc dp).2.2 = false →
        (apply_ducking true d main sc dp).1 = main) := by
  refine ⟨rfl, rfl, fun hfail => ?_⟩
  rw [apply_ducking_cases]
  simp [hfail]

theorem C3_witness :
    (apply_ducking true (fun _ _ _ _ _ => none) ⟨[[[1]]], 44100⟩
        ⟨[[[1]]], 44100⟩ ⟨0, 0, -24, -12, 5, 200⟩).1 = ⟨[[[1]]], 44100⟩ :=
  (C3_fallback_passthrough (fun ch _ _ => ch) (fun _ _ _ _ _ => none)
    ⟨[[[1]]], 44100⟩ ⟨[[[1]]], 44100⟩ ⟨[[[1]]], 44100⟩
    ⟨-20, 4, 10, 100, 0, 0, 1⟩ ⟨0, 0, -24, -12, 5, 200⟩).2.2 (by decide)

/-- C4: a zero-length input is a no-op success for both nodes: in
`apply_compression` a channel with zero samples is skipped without invoking
the native `ProcessCompressor` call and the node still returns that
channel's empty data unchanged; `apply_ducking` performs no zero-length
check and raises nothing itself, so — whenever the sidechain mix-down exists
and the engine honours the result-length contract, in particular on empty
main or empty sidechain buffers — it completes on the success path rather
than raising. -/

theorem C4_empty_noop (e : CompEngine) (d : DuckEngine) (audio main sc : Audio)
    (cp : CompressorParams) (dp : DuckParams)
    (res : List ℚ → List ℚ → DuckResult)
    (hE : ∀ ch s, d ch main.sample_rate s sc.sample_rate dp = some (res ch s))
    (hres : ∀ ch s, (res ch s).audio.length ≤ ch.length)
    (hsc : ∀ b, b < dim0 main.waveform → (monoSidechain sc.waveform b).isSome) :
    (∀ b c, (get3 audio.waveform b c).isEmpty = true →
        get3 (apply_compression true e audio cp).1.waveform b c
            = get3 audio.waveform b c
        ∧ (b, c) ∉ (apply_compression true e audio cp).2)
    ∧ (apply_ducking true d main sc dp).2.2 = true := by
  constructor
  · intro b c hemp
    obtain ⟨hlog, hval⟩ := compressRun_spec e audio.sample_rate cp
      audio.waveform (rowMajor audio.waveform) audio.waveform []
      (nodup_rowMajor audio.waveform) (fun x _ => rfl)
    constructor
    · show get3 ((rowMajor audio.waveform).foldl
        (compStep e audio.sample_rate cp) (audio.waveform, [])).1 b c = _
      rw [hval b c]
      by_cases hmem : (b, c) ∈ rowMajor audio.waveform
      · rw [if_pos hmem]
        unfold compCh
        rw [if_pos hemp]
      · rw [if_neg hmem]
    · show (b, c) ∉ ((rowMajor audio.waveform).foldl
        (compStep e audio.sample_rate cp) (audio.waveform, [])).2
      rw [hlog]
      intro hmem
      rw [List.nil_append] at hmem
      have hpred := (List.mem_filter.mp hmem).2
      rw [hemp] at hpred
      exact Bool.false_ne_true hpred
  · have hmono : ∀ b ∈ List.range (dim0 main.waveform),
        monoSidechain sc.waveform b
          = some ((monoSidechain sc.waveform b).getD []) := by
      intro b hb
      obtain ⟨a, ha⟩ := Option.isSome_iff_exists.mp (hsc b (List.mem_range.mp hb))
      rw [ha]
      rfl
    have hsh : ∀ b c, (get3 (zerosLike main.waveform) b c).length
        = (get3 main.waveform b c).length := by
      intro b c
      rw [get3_zerosLike]
      simp
    obtain ⟨hrun, -⟩ := duckBatchLoop_ok d main.waveform sc.waveform
      main.sample_rate sc.sample_rate dp res hE hres
      (fun b => (monoSidechain sc.waveform b).getD [])
      (List.range (dim0 main.waveform)) (zerosLike main.waveform) emptyTrace
      (List.nodup_range _) hmono hsh
    have hok : (duckRun d main sc dp).2.2 = true := by
      show (duckBatchLoop d main.waveform sc.waveform main.sample_rate
        sc.sample_rate dp (List.range (dim0 main.waveform))
        (zerosLike main.waveform) emptyTrace).2.2 = true
      rw [hrun]
    rw [apply_ducking_cases, if_pos hok]

theorem C4_witness :
    (apply_ducking true (fun ch _ _ _ _ => some ⟨ch, 0⟩) ⟨[[[]]], 44100⟩
        ⟨[[[]]], 44100⟩ ⟨0, 0, -24, -12, 5, 200⟩).2.2 = true
    ∧ (0, 0) ∉ (apply_compression true (fun ch _ _ => ch) ⟨[[[]]], 44100⟩
        ⟨-20, 4, 10, 100, 0, 0, 1⟩).2 :=
  have h := C4_empty_noop (fun ch _ _ => ch) (fun ch _ _ _ _ => some ⟨ch, 0⟩)
    ⟨[[[]]], 44100⟩ ⟨[[[]]], 44100⟩ ⟨[[[]]], 44100⟩
    ⟨-20, 4, 10, 100, 0, 0, 1⟩ ⟨0, 0, -24, -12, 5, 200⟩
    (fun ch _ => ⟨ch, 0⟩) (fun _ _ => rfl) (fun ch _ => Nat.le_refl ch.length)
    (fun b hb => by
      obtain rfl : b = 0 := by
        have hb1 : b < 1 := hb
        omega
      decide)
  ⟨h.2, (h.1 0 0 (by decide)).2⟩

/-- C5: `free_processing_result` is a no-op and safe on a null handle: for
every manager state, a null/None pointer (or an unloaded library) produces
no library call and no error, while a non-null pointer with the library
loaded (and its handle present, which `load_library` guarantees) is
forwarded to exactly one `FreeProcessingResult` call. -/

theorem C5_free_safe (m : Manager) (h : Nat) :
    (∀ m' : Manager, free_processing_result m' none = [])
    ∧ (m.loaded = false → ∀ ptr, free_processing_result m ptr = [])
    ∧ (m.loaded = true → m.hasLib = true →
        free_processing_result m (some h) = [LibCall.freeProcessingResult h]) := by
  refine ⟨fun m' => ?_, fun hnl ptr => ?_, fun hl hlib => ?_⟩
  · unfold free_processing_result
    simp
  · unfold free_processing_result
    rw [hnl]
    rfl
  · unfold free_processing_result
    rw [hl, hlib]
    rfl

theorem C5_witness :
    free_processing_result ⟨"lib/effects", true, true⟩ (some 7)
        = [LibCall.freeProcessingResult 7]
    ∧ free_processing_result ⟨"lib/effects", true, true⟩ none = [] :=
  have h := C5_free_safe ⟨"lib/effects", true, true⟩ 7
  ⟨h.2.2 rfl rfl, h.1 ⟨"lib/effects", true, true⟩⟩

/-- C6 counterexample: with the library loaded and a 1×1×0 input (one batch,
one channel, zero samples), `apply_compression` performs no engine call at
all although `rowMajor` lists exactly one `(batch, channel)` pair — the
claim's "exactly once per channel per batch element" fails on zero-sample
channels, which the `num_samples == 0` skip never dispatches. -/

theorem C6_counterexample :
    (apply_compression true (fun ch _ _ => ch) ⟨[[[]]], 44100⟩
        ⟨-20, 4, 10, 100, 0, 0, 1⟩).2 = []
    ∧ rowMajor ([[[]]] : Tensor3) = [(0, 0)]
    ∧ ([] : List (Nat × Nat)) ≠ [(0, 0)] := by decide

/-- C6 (amended): with the library loaded, `apply_compression` invokes the
engine exactly once per `(batch, channel)` pair whose channel has at least
one sample — zero-sample channels are skipped — in row-major order, writes
each engine result back at its position, and keeps the input's shape; and
`apply_ducking` (whenever every sidechain mix-down exists and the engine
returns non-null results no longer than the main channel) invokes the engine
exactly once per `(batch, main-channel)` pair in row-major order and writes
each result at position `(b, c)` of an output tensor of the input's shape. -/

theorem C6_once_per_channel (e : CompEngine) (d : DuckEngine)
    (audio main sc : Audio) (cp : CompressorParams) (dp : DuckParams)
    (hlen : ∀ ch, (e ch audio.sample_rate cp).length = ch.length)
    (res : List ℚ → List ℚ → DuckResult)
    (hE : ∀ ch s, d ch main.sample_rate s sc.sample_rate dp = some (res ch s))
    (hres : ∀ ch s, (res ch s).audio.length ≤ ch.length)
    (hsc : ∀ b, b < dim0 main.waveform → (monoSidechain sc.waveform b).isSome) :
    (apply_compression true e audio cp).2
        = (rowMajor audio.waveform).filter
            (fun bc => !(get3 audio.waveform bc.1 bc.2).isEmpty)
    ∧ shape3 (apply_compression true e audio cp).1.waveform
        = shape3 audio.waveform
    ∧ (∀ b c, (b, c) ∈ rowMajor audio.waveform →
        (get3 audio.waveform b c).isEmpty = false →
        get3 (apply_compression true e audio cp).1.waveform b c
          = e (get3 audio.waveform b c) audio.sample_rate cp)
    ∧ (apply_ducking true d main sc dp).2.1.calls.map (fun cl => (cl.b, cl.c))
        = rowMajor main.waveform
    ∧ shape3 (apply_ducking true d main sc dp).1.waveform
        = shape3 main.waveform
    ∧ (∀ b c, (b, c) ∈ rowMajor main.waveform →
        get3 (apply_ducking true d main sc dp).1.waveform b c
          = writeBack (get3 (zerosLike main.waveform) b c)
              ((res (get3 main.waveform b c)
                ((monoSidechain sc.waveform b).getD [])).audio)) := by
  obtain ⟨hlog, hval⟩ := compressRun_spec e audio.sample_rate cp
    audio.waveform (rowMajor audio.waveform) audio.waveform []
    (nodup_rowMajor audio.waveform) (fun x _ => rfl)
  have hmono : ∀ b ∈ List.range (dim0 main.waveform),
      monoSidechain sc.waveform b
        = some ((monoSidechain sc.waveform b).getD []) := by
    intro b hb
    obtain ⟨a, ha⟩ := Option.isSome_iff_exists.mp (hsc b (List.mem_range.mp hb))
    rw [ha]
    rfl
  have hsh : ∀ b c, (get3 (zerosLike main.waveform) b c).length
      = (get3 main.waveform b c).length := by
    intro b c
    rw [get3_zerosLike]
    simp
  obtain ⟨hrun, hdval⟩ := duckBatchLoop_ok d main.waveform sc.waveform
    main.sample_rate sc.sample_rate dp res hE hres
    (fun b => (monoSidechain sc.waveform b).getD [])
    (List.range (dim0 main.waveform)) (zerosLike main.waveform) emptyTrace
    (List.nodup_range _) hmono hsh
  have hok : (duckRun d main sc dp).2.2 = true := by
    show (duckBatchLoop d main.waveform sc.waveform main.sample_rate
      sc.sample_rate dp (List.range (dim0 main.waveform))
      (zerosLike main.waveform) emptyTrace).2.2 = true
    rw [hrun]
  refine ⟨?_, ?_, ?_, ?_, ?_, ?_⟩
  · show ((rowMajor audio.waveform).foldl
      (compStep e audio.sample_rate cp) (audio.waveform, [])).2 = _
    rw [hlog, List.nil_append]
  · show shape3 (compressRun e audio.sample_rate cp audio.waveform
      (rowMajor audio.waveform)).1 = _
    exact compressRun_shape e audio.sample_rate cp hlen
      (rowMajor audio.waveform) audio.waveform []
  · intro b c hmem hne
    show get3 ((rowMajor audio.waveform).foldl
      (compStep e audio.sample_rate cp) (audio.waveform, [])).1 b c = _
    rw [hval b c, if_pos hmem]
    unfold compCh
    rw [hne]
    rfl
  · rw [apply_ducking_cases, if_pos hok]
    show ((duckBatchLoop d main.waveform sc.waveform main.sample_rate
      sc.sample_rate dp (List.range (dim0 main.waveform))
      (zerosLike main.waveform) emptyTrace).2.1.calls).map
        (fun cl => (cl.b, cl.c)) = _
    rw [hrun]
    show (((List.range (dim0 main.waveform)).flatMap (fun b =>
        (List.range (dim1 main.waveform)).map
          (fun c => (⟨b, c, get3 main.waveform b c,
            (monoSidechain sc.waveform b).getD []⟩ : DuckCall)))).map
        (fun cl => (cl.b, cl.c))) = _
    rw [List.map_flatMap]
    simp only [List.map_map]
    unfold rowMajor
    rfl
  · rw [apply_ducking_cases, if_pos hok]
    show shape3 (duckRun d main sc dp).1 = _
    exact (duckBatchLoop_shape d main.waveform sc.waveform
      main.sample_rate sc.sample_rate dp (List.range (dim0 main.waveform))
      (zerosLike main.waveform) emptyTrace).trans (shape3_zerosLike _)
  · intro b c hmem
    obtain ⟨hb, hc⟩ := (mem_rowMajor main.waveform b c).mp hmem
    rw [apply_ducking_cases, if_pos hok]
    show get3 (duckRun d main sc dp).1 b c = _
    have hval' := hdval b c
    rw [if_pos (show b ∈ List.range (dim0 main.waveform) ∧ c < dim1 main.waveform
      from ⟨List.mem_range.mpr hb, hc⟩)] at hval'
    exact hval'

theorem C6_witness :
    (apply_compression true (fun ch _ _ => ch.map (fun x => 2 * x))
        ⟨[[[1]]], 44100⟩ ⟨-20, 4, 10, 100, 0, 0, 1⟩).2 = [(0, 0)]
    ∧ (apply_ducking true (fun ch _ _ _ _ => some ⟨ch, 0⟩) ⟨[[[1]]], 44100⟩
        ⟨[[[2]]], 44100⟩ ⟨0, 0, -24, -12, 5, 200⟩).2.1.calls.map
          (fun cl => (cl.b, cl.c)) = [(0, 0)] :=
  have h := C6_once_per_channel (fun ch _ _ => ch.map (fun x => 2 * x))
    (fun ch _ _ _ _ => some ⟨ch, 0⟩) ⟨[[[1]]], 44100⟩ ⟨[[[1]]], 44100⟩
    ⟨[[[2]]], 44100⟩ ⟨-20, 4, 10, 100, 0, 0, 1⟩ ⟨0, 0, -24, -12, 5, 200⟩
    (fun ch => by simp) (fun ch _ => ⟨ch, 0⟩) (fun _ _ => rfl)
    (fun ch _ => Nat.le_refl ch.length)
    (fun b hb => by
      obtain rfl : b = 0 := by
        have hb1 : b < 1 := hb
        omega
      decide)
  ⟨h.1.trans (by decide), (h.2.2.2.1).trans (by decide)⟩

/-- C7: compression is deterministic and order-independent across channels:
with the native `ProcessCompressor` call modelled as a pure function,
running the per-channel dispatch loop over any two duplicate-free orders
covering the same `(b, c)` pairs yields the same tensor, and the output
channel at `(b, c)` depends only on the input channel at `(b, c)`, the
sample rate and the parameters — no cross-channel coupling and no state
carried between calls. -/

theorem C7_deterministic_order_independent (e : CompEngine) (sr : Nat)
    (p : CompressorParams) (t : Tensor3) (o1 o2 : List (Nat × Nat))
    (h1 : o1.Nodup) (h2 : o2.Nodup) (hmem : ∀ x, x ∈ o1 ↔ x ∈ o2) :
    (compressRun e sr p t o1).1 = (compressRun e sr p t o2).1
    ∧ (∀ (a a' : Audio) (b c : Nat),
        rect a.waveform = true → rect a'.waveform = true →
        a.sample_rate = a'.sample_rate →
        get3 a.waveform b c = get3 a'.waveform b c →
        get3 (apply_compression true e a p).1.waveform b c
          = get3 (apply_compression true e a' p).1.waveform b c) := by
  constructor
  · obtain ⟨-, hval1⟩ := compressRun_spec e sr p t o1 t [] h1 (fun x _ => rfl)
    obtain ⟨-, hval2⟩ := compressRun_spec e sr p t o2 t [] h2 (fun x _ => rfl)
    apply tensor3_ext
    · exact (compressRun_len e sr p o1 t []).trans
        (compressRun_len e sr p o2 t []).symm
    · intro b
      exact (compressRun_batchlen e sr p o1 t [] b).trans
        (compressRun_batchlen e sr p o2 t [] b).symm
    · intro b c
      show get3 (o1.foldl (compStep e sr p) (t, [])).1 b c
         = get3 (o2.foldl (compStep e sr p) (t, [])).1 b c
      rw [hval1 b c, hval2 b c]
      by_cases hm : (b, c) ∈ o1
      · rw [if_pos hm, if_pos ((hmem (b, c)).mp hm)]
      · rw [if_neg hm, if_neg (fun hm2 => hm ((hmem (b, c)).mpr hm2))]
  · intro a a' b c hr hr' hsr hch
    obtain ⟨-, hv⟩ := compressRun_spec e a.sample_rate p a.waveform
      (rowMajor a.waveform) a.waveform [] (nodup_rowMajor _) (fun x _ => rfl)
    obtain ⟨-, hv'⟩ := compressRun_spec e a'.sample_rate p a'.waveform
      (rowMajor a'.waveform) a'.waveform [] (nodup_rowMajor _) (fun x _ => rfl)
    show get3 ((rowMajor a.waveform).foldl
        (compStep e a.sample_rate p) (a.waveform, [])).1 b c
      = get3 ((rowMajor a'.waveform).foldl
        (compStep e a'.sample_rate p) (a'.waveform, [])).1 b c
    rw [hv b c, hv' b c]
    by_cases hm : (b, c) ∈ rowMajor a.waveform
    · by_cases hm' : (b, c) ∈ rowMajor a'.waveform
      · rw [if_pos hm, if_pos hm']
        unfold compCh
        rw [hch, hsr]
      · rw [if_pos hm, if_neg hm']
        have hnil' : get3 a'.waveform b c = [] := rect_out_nil a'.waveform hr' hm'
        have hnil : get3 a.waveform b c = [] := by rw [hch, hnil']
        rw [hnil, hnil']
        rfl
    · by_cases hm' : (b, c) ∈ rowMajor a'.waveform
      · rw [if_neg hm, if_pos hm']
        have hnil : get3 a.waveform b c = [] := rect_out_nil a.waveform hr hm
        have hnil' : get3 a'.waveform b c = [] := by rw [← hch]; exact hnil
        rw [hnil, hnil']
        rfl
      · rw [if_neg hm, if_neg hm']
        exact hch

theorem C7_witness :
    (compressRun (fun ch _ _ => ch.map (fun x => x + 1)) 44100
        ⟨-20, 4, 10, 100, 0, 0, 1⟩ [[[1], [2]]] [(0, 0), (0, 1)]).1
      = (compressRun (fun ch _ _ => ch.map (fun x => x + 1)) 44100
        ⟨-20, 4, 10, 100, 0, 0, 1⟩ [[[1], [2]]] [(0, 1), (0, 0)]).1 :=
  (C7_deterministic_order_independent (fun ch _ _ => ch.map (fun x => x + 1))
    44100 ⟨-20, 4, 10, 100, 0, 0, 1⟩ [[[1], [2]]] [(0, 0), (0, 1)]
    [(0, 1), (0, 0)] (by decide) (by decide)
    (fun x => by simp [List.mem_cons]; tauto)).1

/-- Heap-level frame property of `apply_compression`: any pre-existing
tensor is untouched (all loop stores target the fresh clone). -/

theorem apply_compression_heap_frame (e : CompEngine) (σ : HeapState)
    (audioId sr : Nat) (cp : CompressorParams) {i : Nat} (hi : i < σ.next) :
    (apply_compression_heap true e σ audioId sr cp).1.heap i = σ.heap i := by
  show ((rowMajor (σ.heap audioId)).foldl (fun s bc =>
      if (get3 (s.heap (allocT σ (σ.heap audioId)).2) bc.1 bc.2).isEmpty then s
      else writeCh s (allocT σ (σ.heap audioId)).2 bc.1 bc.2
        (e (get3 (s.heap (allocT σ (σ.heap audioId)).2) bc.1 bc.2) sr cp))
      (allocT σ (σ.heap audioId)).1).heap i = σ.heap i
  rw [compFold_frame e sr cp (allocT σ (σ.heap audioId)).2 (Nat.ne_of_lt hi)
      (rowMajor (σ.heap audioId)) (allocT σ (σ.heap audioId)).1]
  exact allocT_frame σ (σ.heap audioId) hi

/-- Heap-level frame property of `apply_ducking`: any pre-existing tensor is
untouched (all loop stores target the fresh `zeros_like` output). -/

theorem apply_ducking_heap_frame (d : DuckEngine) (σ : HeapState)
    (mainId scId msr ssr : Nat) (dp : DuckParams) {i : Nat} (hi : i < σ.next) :
    (apply_ducking_heap true d σ mainId scId msr ssr dp).1.heap i = σ.heap i := by
  show ((match duckBatchLoopHeap d msr ssr dp mainId scId
      (allocT σ (zerosLike (σ.heap mainId))).2
      (List.range (dim0 (σ.heap mainId)))
      (allocT σ (zerosLike (σ.heap mainId))).1 with
    | (σ2, true) => (σ2, (allocT σ (zerosLike (σ.heap mainId))).2)
    | (σ2, false) => (σ2, mainId)).1.heap) i = σ.heap i
  have hfr := duckBatchLoopHeap_frame d msr ssr dp mainId scId
    (allocT σ (zerosLike (σ.heap mainId))).2 (Nat.ne_of_lt hi)
    (List.range (dim0 (σ.heap mainId)))
    (allocT σ (zerosLike (σ.heap mainId))).1
  rcases hrun : duckBatchLoopHeap d msr ssr dp mainId scId
      (allocT σ (zerosLike (σ.heap mainId))).2
      (List.range (dim0 (σ.heap mainId)))
      (allocT σ (zerosLike (σ.heap mainId))).1 with ⟨σ2, ok⟩
  rw [hrun] at hfr
  cases ok
  · exact hfr.trans (allocT_frame σ (zerosLike (σ.heap mainId)) hi)
  · exact hfr.trans (allocT_frame σ (zerosLike (σ.heap mainId)) hi)

/-- C8: neither node mutates its caller's input: `apply_compression` clones
the input waveform and lets the engine work on per-channel NumPy copies
(`astype(np.float32)` copies), writing only into the clone; `apply_ducking`
reads the main and sidechain waveforms only through detached NumPy copies
and writes only into its freshly allocated `zeros_like` output — so after
either call the input audio dictionaries' waveform tensors hold exactly
their original samples. -/

theorem C8_no_input_mutation (loaded : Bool) (e : CompEngine) (d : DuckEngine)
    (σ : HeapState) (audioId mainId scId sr msr ssr : Nat)
    (cp : CompressorParams) (dp : DuckParams)
    (h1 : audioId < σ.next) (h2 : mainId < σ.next) (h3 : scId < σ.next) :
    (apply_compression_heap loaded e σ audioId sr cp).1.heap audioId
        = σ.heap audioId
    ∧ (apply_ducking_heap loaded d σ mainId scId msr ssr dp).1.heap mainId
        = σ.heap mainId
    ∧ (apply_ducking_heap loaded d σ mainId scId msr ssr dp).1.heap scId
        = σ.heap scId := by
  cases loaded
  · exact ⟨rfl, rfl, rfl⟩
  · exact ⟨apply_compression_heap_frame e σ audioId sr cp h1,
      apply_ducking_heap_frame d σ mainId scId msr ssr dp h2,
      apply_ducking_heap_frame d σ mainId scId msr ssr dp h3⟩

theorem C8_witness :
    (apply_compression_heap true (fun ch _ _ => ch.map (fun x => 2 * x))
        ⟨fun _ => [[[1]]], 3⟩ 0 44100 ⟨-20, 4, 10, 100, 0, 0, 1⟩).1.heap 0
      = [[[1]]]
    ∧ (apply_ducking_heap true (fun ch _ _ _ _ => some ⟨ch, 0⟩)
        ⟨fun _ => [[[1]]], 3⟩ 1 2 44100 44100 ⟨0, 0, -24, -12, 5, 200⟩).1.heap 1
      = [[[1]]]
    ∧ (apply_ducking_heap true (fun ch _ _ _ _ => some ⟨ch, 0⟩)
        ⟨fun _ => [[[1]]], 3⟩ 1 2 44100 44100 ⟨0, 0, -24, -12, 5, 200⟩).1.heap 2
      = [[[1]]] :=
  C8_no_input_mutation true (fun ch _ _ => ch.map (fun x => 2 * x))
    (fun ch _ _ _ _ => some ⟨ch, 0⟩) ⟨fun _ => [[[1]]], 3⟩ 0 1 2 44100 44100
    44100 ⟨-20, 4, 10, 100, 0, 0, 1⟩ ⟨0, 0, -24, -12, 5, 200⟩
    (by decide) (by decide) (by decide)

/-- C9: for every batch element whose sidechain has more than one channel,
`apply_ducking` hands the engine a mono control equal to the per-sample
arithmetic mean of the sidechain channels (sum over channels divided by the
channel count); a single-channel sidechain is passed as channel 0 verbatim;
and every engine call of a run carries its batch's mono mix-down as its
control buffer (the same buffer reused for every main channel of that batch
element) together with the main channel at its own position. -/

theorem C9_sidechain_mono_mean (sc : Tensor3) (b : Nat)
    (hr : rect sc = true) (hb : b < sc.length) :
    (1 < dim1 sc →
      ∃ m, monoSidechain sc b = some m ∧ m.length = dim2 sc
        ∧ ∀ i, i < dim2 sc →
            m.getD i 0 = ((sc.getD b []).map (fun ch => ch.getD i 0)).sum
              / (dim1 sc : ℚ))
    ∧ (dim1 sc = 1 →
        monoSidechain sc b = some ((sc.getD b []).getD 0 []))
    ∧ (∀ (d : DuckEngine) (main scA : Audio) (dp : DuckParams) (cl : DuckCall),
        cl ∈ (apply_ducking true d main scA dp).2.1.calls →
          monoSidechain scA.waveform cl.b = some cl.control
          ∧ cl.mainCh = get3 main.waveform cl.b cl.c) := by
  refine ⟨fun h1 => ?_, fun h1 => ?_, ?_⟩
  · have hbatchlen : (sc.getD b []).length = dim1 sc := rect_batch_length sc hr hb
    have hne : sc.getD b [] ≠ [] := by
      intro hnil
      rw [hnil, List.length_nil] at hbatchlen
      omega
    have hch := rect_channels sc hr hb
    refine ⟨(sumChannels (sc.getD b [])).map (fun x => x / (dim1 sc : ℚ)),
      ?_, ?_, ?_⟩
    · unfold monoSidechain
      rw [if_pos hb, if_pos h1]
    · rw [List.length_map]
      exact length_sumChannels (dim2 sc) (sc.getD b []) hne hch
    · intro i hi
      rw [getD_map (fun x => x / (dim1 sc : ℚ)) (sumChannels (sc.getD b []))
            i 0 0 (zero_div _),
          getD_sumChannels (dim2 sc) (sc.getD b []) hne hch i hi]
  · unfold monoSidechain
    rw [if_pos hb, if_neg (by rw [h1]; omega)]
    have hbatchlen : (sc.getD b []).length = dim1 sc := rect_batch_length sc hr hb
    rcases hB : sc.getD b [] with _ | ⟨ch, rest⟩
    · rw [hB, List.length_nil, h1] at hbatchlen
      omega
    · rfl
  · intro d main scA dp cl hcl
    rw [apply_ducking_cases] at hcl
    by_cases hok : (duckRun d main scA dp).2.2 = true
    · rw [if_pos hok] at hcl
      rcases duckBatchLoop_calls d main.waveform scA.waveform main.sample_rate
          scA.sample_rate dp (List.range (dim0 main.waveform))
          (zerosLike main.waveform) emptyTrace cl hcl with hin | hgood
      · exact absurd hin (List.not_mem_nil cl)
      · exact hgood
    · rw [if_neg hok] at hcl
      rcases duckBatchLoop_calls d main.waveform scA.waveform main.sample_rate
          scA.sample_rate dp (List.range (dim0 main.waveform))
          (zerosLike main.waveform) emptyTrace cl hcl with hin | hgood
      · exact absurd hin (List.not_mem_nil cl)
      · exact hgood

theorem C9_witness :
    (monoSidechain [[[1], [3]]] 0).isSome = true
    ∧ monoSidechain [[[5]]] 0
        = some ((([[[5]]] : Tensor3).getD 0 []).getD 0 []) := by
  constructor
  · obtain ⟨m, hm, -, -⟩ :=
      (C9_sidechain_mono_mean [[[1], [3]]] 0 (by decide) (by decide)).1 (by decide)
    rw [hm]
    rfl
  · exact (C9_sidechain_mono_mean [[[5]]] 0 (by decide) (by decide)).2.1 (by decide)

/-- C10: `get_library_manager` is idempotent: the first call (global still
`None`) constructs exactly one `SoundFlowLibraryManager` and attempts
`load_library` exactly once; every subsequent call returns that same stored
instance with no construction and no load attempt, regardless of the
`lib_base_name` argument and even if the first load failed. -/

theorem C10_singleton_idempotent (ok : String → Bool) (name name' : String)
    (g : Option Manager) (m : Manager) :
    (get_library_manager ok name none).2.2 = ⟨1, 1⟩
    ∧ (g = some m → get_library_manager ok name' g = (m, some m, ⟨0, 0⟩))
    ∧ (get_library_manager ok name' (get_library_manager ok name none).2.1
        = ((get_library_manager ok name none).1,
           (get_library_manager ok name none).2.1, ⟨0, 0⟩)) := by
  refine ⟨rfl, fun hg => ?_, rfl⟩
  rw [hg]
  rfl

theorem C10_witness :
    get_library_manager (fun _ => false) "other"
        (some ⟨"lib/effects", false, false⟩)
      = (⟨"lib/effects", false, false⟩, some ⟨"lib/effects", false, false⟩,
         ⟨0, 0⟩) :=
  (C10_singleton_idempotent (fun _ => false) "lib/effects" "other"
    (some ⟨"lib/effects", false, false⟩) ⟨"lib/effects", false, false⟩).2.1 rfl

end SoundFlow

